import Mathlib

deriving instance DecidableEq for Except

/-!
Verification of the LibCST template-substitution helpers
(`libcst/helpers/_template.py`) and the comment gatherer
(`libcst/codemod/visitors/_gather_comments.py`).

Strings are modelled as `List Char` (`Str`).  The external parser and the
external node universe are modelled as, respectively, a function parameter
of the drivers and a small representative inductive of tree nodes: the
parser and the node type system are explicitly outside the verified core
(spec sections 1 and 4.2), and every operation of the core is embedded
faithfully from the Python source.

Python string primitives used by the source (`in`, `str.split(sep, 1)`,
`str.replace`) are embedded as `csub`, `splitFirst?` and `replaceAll`
below, with Python's leftmost–non-overlapping replacement semantics.
-/

namespace LCST

/-- Strings of the embedded program: lists of characters. -/
abbrev Str := List Char

/-- The character left-brace. -/
def lbrace : Char := Char.ofNat 123

/-- The character right-brace. -/
def rbrace : Char := Char.ofNat 125

/-- `TEMPLATE_PREFIX` from `_template.py`. -/
def TEMPLATE_PREFIX_S : Str := ("__LIBCST_MANGLED_NAME_").data

/-- `TEMPLATE_SUFFIX` from `_template.py`. -/
def TEMPLATE_SUFFIX_S : Str := ("_EMAN_DELGNAM_TSCBIL__").data

/-- Python `s.split(pat, 1)` restricted to the case it is used in:
splits `s` at the first occurrence of `pat`, returning the text before
and after the occurrence, or `none` when `pat` does not occur. -/
def splitFirst? : Str → Str → Option (Str × Str)
  | [], pat => if pat.isPrefixOf ([] : Str) then some ([], []) else none
  | c :: cs, pat =>
    if pat.isPrefixOf (c :: cs) then some ([], (c :: cs).drop pat.length)
    else
      match splitFirst? cs pat with
      | some (pre, post) => some (c :: pre, post)
      | none => none

/-- Python `pat in s`: substring containment. -/
def csub (s pat : Str) : Bool := (splitFirst? s pat).isSome

/-- Scanner for Python `str.replace`: `k` counts characters still to skip
after an emitted replacement (the matched pattern's tail). -/
def replaceSkip (pat rep : Str) : Str → Nat → Str
  | [], _ => []
  | _ :: cs, Nat.succ k => replaceSkip pat rep cs k
  | c :: cs, 0 =>
    if pat.isPrefixOf (c :: cs) then rep ++ replaceSkip pat rep cs (pat.length - 1)
    else c :: replaceSkip pat rep cs 0

/-- Python `s.replace(pat, rep)`: replace every occurrence, scanning
leftmost and non-overlapping.  (All uses in the source pass a non-empty
`pat`, a marker of the form `{name}`.) -/
def replaceAll (s pat rep : Str) : Str := replaceSkip pat rep s 0

/-- Errors raised by the embedded code.  Each constructor corresponds to
one `raise` site of the source (`parseFailure` stands for an error
propagated verbatim from the external parser, and `valueError` for the
`ValueError` a failing tuple unpacking raises). -/
inductive TError where
  | reserved : TError
  | missingRef (v : Str) : TError
  | unsupported (v : Str) : TError
  | parseFailure : TError
  | valueError : TError
  | wrongType : TError
  | notReplaced (v : Str) : TError
deriving DecidableEq, Repr

/-- `mangled_name(var)` from `_template.py`. -/
def mangled_name (var : Str) : Str := TEMPLATE_PREFIX_S ++ var ++ TEMPLATE_SUFFIX_S

/-- The placeholder marker literally written in templates: `f"{{{var}}}"`,
that is `{var}`. -/
def marker (var : Str) : Str := lbrace :: (var ++ [rbrace])

/-- The `for var in template_vars` loop body of `mangle_template`:
require the marker to occur, then replace every occurrence. -/
def mangleVars : Str → List Str → Except TError Str
  | t, [] => .ok t
  | t, v :: vs =>
    if csub t (marker v) then mangleVars (replaceAll t (marker v) (mangled_name v)) vs
    else .error (.missingRef v)

/-- `mangle_template(template, template_vars)` from `_template.py`.
The iteration order of the Python `Set[str]` is made explicit as the
order of the list `template_vars`. -/
def mangle_template (template : Str) (template_vars : List Str) : Except TError Str :=
  if csub template TEMPLATE_PREFIX_S || csub template TEMPLATE_SUFFIX_S then
    .error .reserved
  else mangleVars template template_vars

/-- A representative fragment of the external `libcst` node universe:
identifiers, two literal kinds, a binary operation (expression-shaped
nodes, `cst.BaseExpression`), an expression statement, a simple statement
line, a compound statement and a module. -/
inductive CST where
  | name (value : Str) : CST
  | simpleString (value : Str) : CST
  | integer (value : Str) : CST
  | binaryOperation (left right : CST) : CST
  | exprStatement (value : CST) : CST
  | simpleStatementLine (body : CST) : CST
  | ifBlock (test body : CST) : CST
  | module (body : CST) : CST
deriving DecidableEq, Repr

/-- `isinstance(node, cst.BaseExpression)`. -/
def isBaseExpression : CST → Bool
  | .name _ => true
  | .simpleString _ => true
  | .integer _ => true
  | .binaryOperation _ _ => true
  | _ => false

/-- `isinstance(node, (cst.SimpleStatementLine, cst.BaseCompoundStatement))`. -/
def isStatementNode : CST → Bool
  | .simpleStatementLine _ => true
  | .ifBlock _ _ => true
  | _ => false

/-- `isinstance(node, cst.Module)`. -/
def isModuleNode : CST → Bool
  | .module _ => true
  | _ => false

/-- `CSTNode.deep_clone`: a structurally identical, freshly built copy. -/
def deep_clone : CST → CST
  | .name v => .name v
  | .simpleString v => .simpleString v
  | .integer v => .integer v
  | .binaryOperation l r => .binaryOperation (deep_clone l) (deep_clone r)
  | .exprStatement e => .exprStatement (deep_clone e)
  | .simpleStatementLine b => .simpleStatementLine (deep_clone b)
  | .ifBlock t b => .ifBlock (deep_clone t) (deep_clone b)
  | .module b => .module (deep_clone b)

/-- Python `name in simple_replacements` / `simple_replacements[name]`
on the kwargs mapping (distinct keys). -/
def lookupRepl (m : List (Str × CST)) (k : Str) : Option CST :=
  (m.find? (fun p => p.1 == k)).map (fun p => p.2)

/-- `TemplateTransformer.__init__`: keep the expression-shaped values as
`simple_replacements`; raise `unsupported` naming an offending variable
when any value is not expression-shaped. -/
def TemplateTransformer_init (template_replacements : List (Str × CST)) :
    Except TError (List (Str × CST)) :=
  match template_replacements.find? (fun p => !(isBaseExpression p.2)) with
  | some p => .error (.unsupported p.1)
  | none => .ok (template_replacements.filter (fun p => isBaseExpression p.2))

/-- `TemplateTransformer.leave_Name`, acting on the identifier's text.
The two `str.split(..., 1)` calls are embedded by `splitFirst?`; when
the text after the first `TEMPLATE_PREFIX` occurrence holds no
`TEMPLATE_SUFFIX`, the Python tuple unpacking raises `ValueError`. -/
def leave_Name (simple_replacements : List (Str × CST)) (value : Str) :
    Except TError CST :=
  if csub value TEMPLATE_PREFIX_S && csub value TEMPLATE_SUFFIX_S then
    match splitFirst? value TEMPLATE_PREFIX_S with
    | none => .error .valueError
    | some (pre, name_and_suffix) =>
      match splitFirst? name_and_suffix TEMPLATE_SUFFIX_S with
      | none => .error .valueError
      | some (nm, suf) =>
        if pre ≠ ([] : Str) ∨ suf ≠ ([] : Str) then .ok (.name value)
        else
          match lookupRepl simple_replacements nm with
          | none => .ok (.name value)
          | some n => .ok (deep_clone n)
  else .ok (.name value)

/-- The traversal of `TemplateTransformer`: rebuild the tree bottom-up,
invoking `leave_Name` at every identifier.  Replacement nodes returned by
`leave_Name` are not revisited, as in `libcst`'s transformer. -/
def transform (simple_replacements : List (Str × CST)) : CST → Except TError CST
  | .name v => leave_Name simple_replacements v
  | .simpleString s => .ok (.simpleString s)
  | .integer s => .ok (.integer s)
  | .binaryOperation l r => do
    let l' ← transform simple_replacements l
    let r' ← transform simple_replacements r
    .ok (.binaryOperation l' r')
  | .exprStatement e => do
    let e' ← transform simple_replacements e
    .ok (.exprStatement e')
  | .simpleStatementLine b => do
    let b' ← transform simple_replacements b
    .ok (.simpleStatementLine b')
  | .ifBlock t b => do
    let t' ← transform simple_replacements t
    let b' ← transform simple_replacements b
    .ok (.ifBlock t' b')
  | .module b => do
    let b' ← transform simple_replacements b
    .ok (.module b')

/-- `unmangle_nodes`: construct the transformer, then run it. -/
def unmangle_nodes (tree : CST) (template_replacements : List (Str × CST)) :
    Except TError CST := do
  let simple ← TemplateTransformer_init template_replacements
  transform simple tree

/-- `TemplateChecker.visit_Name`: the `for var in self.template_vars`
loop comparing the identifier's text with each exact mangled token. -/
def visit_Name_check : List Str → Str → Except TError Unit
  | [], _ => .ok ()
  | v :: vs, value =>
    if value = mangled_name v then .error (.notReplaced v)
    else visit_Name_check vs value

/-- The traversal of `TemplateChecker`: visit every node, running
`visit_Name` at each identifier. -/
def check (template_vars : List Str) : CST → Except TError Unit
  | .name v => visit_Name_check template_vars v
  | .simpleString _ => .ok ()
  | .integer _ => .ok ()
  | .binaryOperation l r => do
    let _ ← check template_vars l
    check template_vars r
  | .exprStatement e => check template_vars e
  | .simpleStatementLine b => check template_vars b
  | .ifBlock t b => do
    let _ ← check template_vars t
    check template_vars b
  | .module b => check template_vars b

/-- Claim-side predicate: some identifier node of the tree carries the
exact mangled token of a declared variable. -/
def hasMangledName (template_vars : List Str) : CST → Bool
  | .name v => template_vars.any (fun x => v == mangled_name x)
  | .simpleString _ => false
  | .integer _ => false
  | .binaryOperation l r =>
    hasMangledName template_vars l || hasMangledName template_vars r
  | .exprStatement e => hasMangledName template_vars e
  | .simpleStatementLine b => hasMangledName template_vars b
  | .ifBlock t b =>
    hasMangledName template_vars t || hasMangledName template_vars b
  | .module b => hasMangledName template_vars b

/-- `parse_template_module`: mangle, parse (the external `cst.parse_module`
is the parameter `parse`), unmangle, require a module, run the checker. -/
def parse_template_module (parse : Str → Except TError CST) (template : Str)
    (template_replacements : List (Str × CST)) : Except TError CST := do
  let source ← mangle_template template (template_replacements.map (fun p => p.1))
  let moduleTree ← parse source
  let new_module ← unmangle_nodes moduleTree template_replacements
  if isModuleNode new_module then do
    let _ ← check (template_replacements.map (fun p => p.1)) new_module
    .ok new_module
  else .error .wrongType

/-- `parse_template_statement`: mangle, parse (the external
`cst.parse_statement` is the parameter `parse`), unmangle, require a
statement-shaped result, run the checker.  Note the source hands
`template` to `mangle_template` unchanged. -/
def parse_template_statement (parse : Str → Except TError CST) (template : Str)
    (template_replacements : List (Str × CST)) : Except TError CST := do
  let source ← mangle_template template (template_replacements.map (fun p => p.1))
  let statement ← parse source
  let new_statement ← unmangle_nodes statement template_replacements
  if isStatementNode new_statement then do
    let _ ← check (template_replacements.map (fun p => p.1)) new_statement
    .ok new_statement
  else .error .wrongType

/-- `parse_template_expression`: mangle, parse (the external
`cst.parse_expression` is the parameter `parse`), unmangle, require an
expression-shaped result, run the checker. -/
def parse_template_expression (parse : Str → Except TError CST) (template : Str)
    (template_replacements : List (Str × CST)) : Except TError CST := do
  let source ← mangle_template template (template_replacements.map (fun p => p.1))
  let expression ← parse source
  let new_expression ← unmangle_nodes expression template_replacements
  if isBaseExpression new_expression then do
    let _ ← check (template_replacements.map (fun p => p.1)) new_expression
    .ok new_expression
  else .error .wrongType

/-- A comment node of the external node universe (`cst.Comment`): its
textual value. -/
structure CommentNode where
  value : Str
deriving DecidableEq, Repr

/-- Python dict assignment `d[k] = c` on an insertion-ordered mapping:
overwrite in place when the key exists, append otherwise. -/
def dictSet (m : List (Nat × CommentNode)) (k : Nat) (c : CommentNode) :
    List (Nat × CommentNode) :=
  if m.any (fun p => p.1 == k) then
    m.map (fun p => if p.1 == k then (k, c) else p)
  else m ++ [(k, c)]

/-- Python dict lookup `d.get(k)`. -/
def dictGet? (m : List (Nat × CommentNode)) (k : Nat) : Option CommentNode :=
  (m.find? (fun p => p.1 == k)).map (fun p => p.2)

/-- `GatherCommentsVisitor.visit_comment` from `_gather_comments.py`:
`matcher` is the compiled pattern's anchored match test
(`self._comment_matcher.match`), `standalone` tells whether the visited
node is an `EmptyLine` (as opposed to a `TrailingWhitespace`), and
`line` is the comment's own source line from the position metadata. -/
def visit_comment (matcher : Str → Bool) (standalone : Bool) (line : Nat)
    (comment : CommentNode) (comments : List (Nat × CommentNode)) :
    List (Nat × CommentNode) :=
  if !(matcher comment.value) then comments
  else dictSet comments (if standalone then line + 1 else line) comment

/-- An external parser that parses any source text as a single
identifier, the behaviour of `cst.parse_expression` on an
identifier-only source. -/
def echoNameParse : Str → Except TError CST := fun s => .ok (.name s)

/-- An external parser that parses any source text as one expression
statement line, recording the received text in the identifier. -/
def echoStatementParse : Str → Except TError CST :=
  fun s => .ok (.simpleStatementLine (.exprStatement (.name s)))

/-- An external parser that parses any source text as a string literal
carrying the full text, the behaviour of `cst.parse_expression` on a
quoted source. -/
def echoStringParse : Str → Except TError CST := fun s => .ok (.simpleString s)

/-- An external parser that always reports a syntax error. -/
def failParse : Str → Except TError CST := fun _ => .error .parseFailure

/-- Variable names under which the mangling loop is order-independent:
no brace character (so distinct markers cannot overlap) and no
occurrence of the sentinel `TEMPLATE_PREFIX` (so no replacement can
create another variable's marker). -/
def goodVar (v : Str) : Prop :=
  lbrace ∉ v ∧ rbrace ∉ v ∧ csub v TEMPLATE_PREFIX_S = false

instance (v : Str) : Decidable (goodVar v) := by
  unfold goodVar
  infer_instance

/-! Basic facts about the embedded Python string primitives. -/

theorem csub_cons (c : Char) (cs pat : Str) :
    csub (c :: cs) pat = (pat.isPrefixOf (c :: cs) || csub cs pat) := by
  by_cases h : pat.isPrefixOf (c :: cs) = true
  · simp [csub, splitFirst?, h]
  · simp only [Bool.not_eq_true] at h
    cases hs : splitFirst? cs pat with
    | none => simp [csub, splitFirst?, h, hs]
    | some p => cases p with | mk a b => simp [csub, splitFirst?, h, hs]

theorem csub_nil (pat : Str) : csub ([] : Str) pat = pat.isPrefixOf ([] : Str) := by
  by_cases h : pat.isPrefixOf ([] : Str) = true
  · simp [csub, splitFirst?, h]
  · simp only [Bool.not_eq_true] at h
    simp [csub, splitFirst?, h]

theorem csub_of_isPrefixOf {s pat : Str} (h : pat.isPrefixOf s = true) :
    csub s pat = true := by
  cases s with
  | nil => rw [csub_nil, h]
  | cons c cs => rw [csub_cons, h, Bool.true_or]

theorem csub_tail_false {a : Char} {w pat : Str} (h : csub (a :: w) pat = false) :
    csub w pat = false := by
  rw [csub_cons] at h
  exact (Bool.or_eq_false_iff.mp h).2

theorem replaceSkip_drop (pat rep : Str) :
    ∀ s k, replaceSkip pat rep s k = replaceAll (s.drop k) pat rep := by
  intro s
  induction s with
  | nil => intro k; cases k <;> rfl
  | cons c cs ih =>
    intro k
    cases k with
    | zero => rfl
    | succ k => simpa [replaceSkip] using ih k

theorem replaceAll_nil (pat rep : Str) : replaceAll ([] : Str) pat rep = [] := rfl

theorem replaceAll_cons_neg {pat : Str} {c : Char} {cs : Str}
    (h : pat.isPrefixOf (c :: cs) = false) (rep : Str) :
    replaceAll (c :: cs) pat rep = c :: replaceAll cs pat rep := by
  rw [show replaceAll (c :: cs) pat rep = replaceSkip pat rep (c :: cs) 0 from rfl]
  simp [replaceSkip, h]
  rfl

theorem replaceAll_pos {pat s : Str} (h : pat.isPrefixOf s = true) (hne : pat ≠ [])
    (rep : Str) :
    replaceAll s pat rep = rep ++ replaceAll (s.drop pat.length) pat rep := by
  cases s with
  | nil =>
    cases pat with
    | nil => exact absurd rfl hne
    | cons a as => simp [List.isPrefixOf] at h
  | cons c cs =>
    rw [show replaceAll (c :: cs) pat rep = replaceSkip pat rep (c :: cs) 0 from rfl]
    simp only [replaceSkip, h, if_true]
    rw [replaceSkip_drop]
    cases pat with
    | nil => exact absurd rfl hne
    | cons a as => simp

/-! Markers, mangled tokens and braces. -/

theorem isPrefixOf_cons_eq (a : Char) (l₁ : Str) (b : Char) (l₂ : Str) :
    (a :: l₁).isPrefixOf (b :: l₂) = (a == b && l₁.isPrefixOf l₂) := rfl

theorem marker_isPrefixOf_cons {w : Str} {c : Char} (h : c ≠ lbrace) (t : Str) :
    (marker w).isPrefixOf (c :: t) = false := by
  rw [marker, isPrefixOf_cons_eq]
  have : (lbrace == c) = false := by
    simp only [beq_eq_false_iff_ne, ne_eq]
    exact fun hc => h hc.symm
  rw [this, Bool.false_and]

theorem lbrace_not_mem_mangled {v : Str} (h : lbrace ∉ v) :
    lbrace ∉ mangled_name v := by
  rw [mangled_name]
  intro hm
  rcases List.mem_append.mp hm with h1 | h2
  · rcases List.mem_append.mp h1 with h3 | h4
    · exact absurd h3 (by decide)
    · exact h h4
  · exact absurd h2 (by decide)

theorem rbrace_not_mem_mangled {v : Str} (h : rbrace ∉ v) :
    rbrace ∉ mangled_name v := by
  rw [mangled_name]
  intro hm
  rcases List.mem_append.mp hm with h1 | h2
  · rcases List.mem_append.mp h1 with h3 | h4
    · exact absurd h3 (by decide)
    · exact h h4
  · exact absurd h2 (by decide)

theorem csub_marker_append {s₁ : Str} (h : lbrace ∉ s₁) (s₂ w : Str) :
    csub (s₁ ++ s₂) (marker w) = csub s₂ (marker w) := by
  induction s₁ with
  | nil => rfl
  | cons c cs ih =>
    have hc : c ≠ lbrace := fun hc => h (by rw [← hc] at *; exact List.mem_cons_self c cs)
    rw [List.cons_append, csub_cons, marker_isPrefixOf_cons hc, Bool.false_or]
    exact ih (fun hm => h (List.mem_cons_of_mem c hm))

theorem replaceAll_marker_append {s₁ : Str} (h : lbrace ∉ s₁) (s₂ v rep : Str) :
    replaceAll (s₁ ++ s₂) (marker v) rep = s₁ ++ replaceAll s₂ (marker v) rep := by
  induction s₁ with
  | nil => rfl
  | cons c cs ih =>
    have hc : c ≠ lbrace := fun hc => h (by rw [← hc] at *; exact List.mem_cons_self c cs)
    rw [List.cons_append, replaceAll_cons_neg (marker_isPrefixOf_cons hc _) rep,
      ih (fun hm => h (List.mem_cons_of_mem c hm)), List.cons_append]

theorem append_rbrace_inj : ∀ (v w : Str), rbrace ∉ v → rbrace ∉ w →
    (v ++ [rbrace]) <+: (w ++ [rbrace]) → v = w := by
  intro v
  induction v with
  | nil =>
    intro w _ hw h
    cases w with
    | nil => rfl
    | cons b w' =>
      rw [List.nil_append, List.cons_append] at h
      rcases List.cons_prefix_cons.mp h with ⟨heq, _⟩
      exact absurd (by rw [heq]; exact List.mem_cons_self b w') hw
  | cons a v' ih =>
    intro w hv hw h
    cases w with
    | nil =>
      rw [List.cons_append, List.nil_append] at h
      rcases List.cons_prefix_cons.mp h with ⟨_, h2⟩
      have : v' ++ [rbrace] = [] := List.prefix_nil.mp h2
      exact absurd this (by simp)
    | cons b w' =>
      rw [List.cons_append, List.cons_append] at h
      rcases List.cons_prefix_cons.mp h with ⟨heq, h2⟩
      rw [heq, ih w' (fun hm => hv (List.mem_cons_of_mem a hm))
        (fun hm => hw (List.mem_cons_of_mem b hm)) h2]

theorem marker_prefix_inj {v w s : Str} (hv : rbrace ∉ v) (hw : rbrace ∉ w)
    (h1 : (marker v).isPrefixOf s = true) (h2 : (marker w).isPrefixOf s = true) :
    v = w := by
  rw [List.isPrefixOf_iff_prefix] at h1 h2
  rcases le_total (marker v).length (marker w).length with hle | hle
  · have hp := List.prefix_of_prefix_length_le h1 h2 hle
    rw [marker, marker] at hp
    rcases List.cons_prefix_cons.mp hp with ⟨_, hp2⟩
    exact append_rbrace_inj v w hv hw hp2
  · have hp := List.prefix_of_prefix_length_le h2 h1 hle
    rw [marker, marker] at hp
    rcases List.cons_prefix_cons.mp hp with ⟨_, hp2⟩
    exact (append_rbrace_inj w v hw hv hp2).symm

theorem marker_isPrefixOf_self_append (v t : Str) :
    (marker v).isPrefixOf (marker v ++ t) = true :=
  List.isPrefixOf_iff_prefix.mpr ⟨t, rfl⟩

theorem marker_ne_nil (v : Str) : marker v ≠ ([] : Str) := by simp [marker]

theorem lbrace_not_mem_body {v : Str} (hv1 : lbrace ∉ v) : lbrace ∉ (v ++ [rbrace]) := by
  intro hm
  rcases List.mem_append.mp hm with h | h
  · exact hv1 h
  · simp only [List.mem_singleton] at h
    exact absurd h (by decide)

theorem braces_isPrefixOf_mangled_append {v w : Str} (hv : rbrace ∉ v)
    (hw : csub w TEMPLATE_PREFIX_S = false) (R : Str) :
    (w ++ [rbrace]).isPrefixOf (mangled_name v ++ R) = false := by
  by_contra hc
  rw [Bool.not_eq_false, List.isPrefixOf_iff_prefix] at hc
  rcases le_or_lt (w.length + 1) (mangled_name v).length with hle | hlt
  · have h2 : (w ++ [rbrace]) <+: mangled_name v :=
      List.prefix_of_prefix_length_le hc ⟨R, rfl⟩ (by simpa using hle)
    exact absurd (h2.subset (by simp)) (rbrace_not_mem_mangled hv)
  · have hG : mangled_name v <+: (w ++ [rbrace]) :=
      List.prefix_of_prefix_length_le ⟨R, rfl⟩ hc (by simp; omega)
    have hGw : mangled_name v <+: w :=
      List.prefix_of_prefix_length_le hG ⟨[rbrace], rfl⟩ (by omega)
    have hPw : TEMPLATE_PREFIX_S <+: w :=
      List.IsPrefix.trans ⟨v ++ TEMPLATE_SUFFIX_S, by simp [mangled_name]⟩ hGw
    have hcw : csub w TEMPLATE_PREFIX_S = true :=
      csub_of_isPrefixOf (List.isPrefixOf_iff_prefix.mpr hPw)
    rw [hw] at hcw
    exact Bool.noConfusion hcw

theorem braces_isPrefixOf_marker_append {w : Str} (hw : lbrace ∉ w) (v t : Str) :
    (w ++ [rbrace]).isPrefixOf (marker v ++ t) = false := by
  cases w with
  | nil =>
    rw [List.nil_append, marker, List.cons_append, isPrefixOf_cons_eq]
    have hb : (rbrace == lbrace) = false := by decide
    rw [hb, Bool.false_and]
  | cons a w' =>
    rw [List.cons_append, marker, List.cons_append, isPrefixOf_cons_eq]
    have ha : (a == lbrace) = false := by
      simp only [beq_eq_false_iff_ne, ne_eq]
      exact fun hc => hw (by rw [← hc] at *; exact List.mem_cons_self a w')
    rw [ha, Bool.false_and]

theorem braces_isPrefixOf_replaceAll {v : Str} (_hv1 : lbrace ∉ v) (hv2 : rbrace ∉ v) :
    ∀ n cs, List.length cs ≤ n → ∀ w : Str, lbrace ∉ w →
      csub w TEMPLATE_PREFIX_S = false →
      (w ++ [rbrace]).isPrefixOf (replaceAll cs (marker v) (mangled_name v))
        = (w ++ [rbrace]).isPrefixOf cs := by
  intro n
  induction n with
  | zero =>
    intro cs hcs w _ _
    have hnil : cs = [] := List.eq_nil_of_length_eq_zero (Nat.le_zero.mp hcs)
    subst hnil
    rfl
  | succ n ih =>
    intro cs hcs w hw hwP
    cases cs with
    | nil => rfl
    | cons c cs' =>
      by_cases hm : (marker v).isPrefixOf (c :: cs') = true
      · obtain ⟨t, ht⟩ := List.isPrefixOf_iff_prefix.mp hm
        rw [← ht]
        have hdrop : (marker v ++ t).drop (marker v).length = t := by simp
        rw [replaceAll_pos (marker_isPrefixOf_self_append v t) (marker_ne_nil v) _, hdrop]
        rw [braces_isPrefixOf_mangled_append hv2 hwP, braces_isPrefixOf_marker_append hw]
      · have hm' : (marker v).isPrefixOf (c :: cs') = false := Bool.eq_false_iff.mpr hm
        rw [replaceAll_cons_neg hm' _]
        cases w with
        | nil =>
          rw [List.nil_append, isPrefixOf_cons_eq, isPrefixOf_cons_eq]
          simp [List.isPrefixOf]
        | cons a w' =>
          rw [List.cons_append, isPrefixOf_cons_eq, isPrefixOf_cons_eq]
          rw [ih cs' (by simp at hcs; omega) w'
            (fun hm2 => hw (List.mem_cons_of_mem a hm2)) (csub_tail_false hwP)]

theorem csub_marker_marker_append {v w : Str} (hv1 : lbrace ∉ v) (hv2 : rbrace ∉ v)
    (hw2 : rbrace ∉ w) (hvw : v ≠ w) (t : Str) :
    csub (marker v ++ t) (marker w) = csub t (marker w) := by
  have h1 : lbrace ∉ (v ++ [rbrace]) := lbrace_not_mem_body hv1
  have hfd : (marker w).isPrefixOf (marker v ++ t) = false := by
    by_contra hc
    rw [Bool.not_eq_false] at hc
    exact hvw (marker_prefix_inj hv2 hw2 (marker_isPrefixOf_self_append v t) hc)
  have hassoc : marker v ++ t = lbrace :: ((v ++ [rbrace]) ++ t) := by simp [marker]
  rw [hassoc] at hfd ⊢
  rw [csub_cons, hfd, Bool.false_or, csub_marker_append h1]

theorem csub_replaceAll_marker {v w : Str} (hv1 : lbrace ∉ v) (hv2 : rbrace ∉ v)
    (hw1 : lbrace ∉ w) (hw2 : rbrace ∉ w) (hvw : v ≠ w)
    (hwP : csub w TEMPLATE_PREFIX_S = false) :
    ∀ n cs, List.length cs ≤ n →
      csub (replaceAll cs (marker v) (mangled_name v)) (marker w) = csub cs (marker w) := by
  intro n
  induction n with
  | zero =>
    intro cs hcs
    have hnil : cs = [] := List.eq_nil_of_length_eq_zero (Nat.le_zero.mp hcs)
    subst hnil
    rfl
  | succ n ih =>
    intro cs hcs
    cases cs with
    | nil => rfl
    | cons c cs' =>
      by_cases hm : (marker v).isPrefixOf (c :: cs') = true
      · obtain ⟨t, ht⟩ := List.isPrefixOf_iff_prefix.mp hm
        rw [← ht] at hcs ⊢
        have hdrop : (marker v ++ t).drop (marker v).length = t := by simp
        rw [replaceAll_pos (marker_isPrefixOf_self_append v t) (marker_ne_nil v) _, hdrop]
        rw [csub_marker_append (lbrace_not_mem_mangled hv1)]
        rw [csub_marker_marker_append hv1 hv2 hw2 hvw]
        exact ih t (by simp [marker] at hcs; omega)
      · have hm' : (marker v).isPrefixOf (c :: cs') = false := Bool.eq_false_iff.mpr hm
        rw [replaceAll_cons_neg hm' _, csub_cons, csub_cons]
        have hhead : (marker w).isPrefixOf (c :: replaceAll cs' (marker v) (mangled_name v))
            = (marker w).isPrefixOf (c :: cs') := by
          rw [marker, isPrefixOf_cons_eq, isPrefixOf_cons_eq,
            braces_isPrefixOf_replaceAll hv1 hv2 cs'.length cs' le_rfl w hw1 hwP]
        rw [hhead, ih cs' (by simp at hcs; omega)]

theorem replaceAll_marker_comm_match {v w t : Str} (hv1 : lbrace ∉ v) (hv2 : rbrace ∉ v)
    (hw2 : rbrace ∉ w) (hvw : v ≠ w)
    (hih : replaceAll (replaceAll t (marker v) (mangled_name v)) (marker w) (mangled_name w)
      = replaceAll (replaceAll t (marker w) (mangled_name w)) (marker v) (mangled_name v)) :
    replaceAll (replaceAll (marker v ++ t) (marker v) (mangled_name v)) (marker w) (mangled_name w)
      = replaceAll (replaceAll (marker v ++ t) (marker w) (mangled_name w)) (marker v) (mangled_name v) := by
  have hdrop : (marker v ++ t).drop (marker v).length = t := by simp
  rw [replaceAll_pos (marker_isPrefixOf_self_append v t) (marker_ne_nil v) _, hdrop]
  rw [replaceAll_marker_append (lbrace_not_mem_mangled hv1)]
  rw [hih]
  have h1 : lbrace ∉ (v ++ [rbrace]) := lbrace_not_mem_body hv1
  have hfd : (marker w).isPrefixOf (marker v ++ t) = false := by
    by_contra hc
    rw [Bool.not_eq_false] at hc
    exact hvw (marker_prefix_inj hv2 hw2 (marker_isPrefixOf_self_append v t) hc)
  have hassoc : marker v ++ t = lbrace :: ((v ++ [rbrace]) ++ t) := by simp [marker]
  have hinner : replaceAll (marker v ++ t) (marker w) (mangled_name w)
      = marker v ++ replaceAll t (marker w) (mangled_name w) := by
    rw [hassoc] at hfd ⊢
    rw [replaceAll_cons_neg hfd _, replaceAll_marker_append h1]
    simp [marker]
  rw [hinner]
  have hdrop2 : (marker v ++ replaceAll t (marker w) (mangled_name w)).drop (marker v).length
      = replaceAll t (marker w) (mangled_name w) := by simp
  rw [replaceAll_pos (marker_isPrefixOf_self_append v _) (marker_ne_nil v) _, hdrop2]

theorem replaceAll_marker_comm {v w : Str} (hv1 : lbrace ∉ v) (hv2 : rbrace ∉ v)
    (hw1 : lbrace ∉ w) (hw2 : rbrace ∉ w) (hvw : v ≠ w)
    (hvP : csub v TEMPLATE_PREFIX_S = false) (hwP : csub w TEMPLATE_PREFIX_S = false) :
    ∀ n cs, List.length cs ≤ n →
      replaceAll (replaceAll cs (marker v) (mangled_name v)) (marker w) (mangled_name w)
        = replaceAll (replaceAll cs (marker w) (mangled_name w)) (marker v) (mangled_name v) := by
  intro n
  induction n with
  | zero =>
    intro cs hcs
    have hnil : cs = [] := List.eq_nil_of_length_eq_zero (Nat.le_zero.mp hcs)
    subst hnil
    rfl
  | succ n ih =>
    intro cs hcs
    cases cs with
    | nil => rfl
    | cons c cs' =>
      by_cases hmv : (marker v).isPrefixOf (c :: cs') = true
      · obtain ⟨t, ht⟩ := List.isPrefixOf_iff_prefix.mp hmv
        rw [← ht] at hcs ⊢
        exact replaceAll_marker_comm_match hv1 hv2 hw2 hvw
          (ih t (by simp [marker] at hcs; omega))
      · by_cases hmw : (marker w).isPrefixOf (c :: cs') = true
        · obtain ⟨t, ht⟩ := List.isPrefixOf_iff_prefix.mp hmw
          rw [← ht] at hcs ⊢
          exact (replaceAll_marker_comm_match hw1 hw2 hv2 (Ne.symm hvw)
            (ih t (by simp [marker] at hcs; omega)).symm).symm
        · have hmv' : (marker v).isPrefixOf (c :: cs') = false := Bool.eq_false_iff.mpr hmv
          have hmw' : (marker w).isPrefixOf (c :: cs') = false := Bool.eq_false_iff.mpr hmw
          rw [replaceAll_cons_neg hmv' _, replaceAll_cons_neg hmw' _]
          have hh1 : (marker w).isPrefixOf
              (c :: replaceAll cs' (marker v) (mangled_name v)) = false := by
            rw [marker, isPrefixOf_cons_eq,
              braces_isPrefixOf_replaceAll hv1 hv2 cs'.length cs' le_rfl w hw1 hwP,
              ← isPrefixOf_cons_eq, ← marker]
            exact hmw'
          have hh2 : (marker v).isPrefixOf
              (c :: replaceAll cs' (marker w) (mangled_name w)) = false := by
            rw [marker, isPrefixOf_cons_eq,
              braces_isPrefixOf_replaceAll hw1 hw2 cs'.length cs' le_rfl v hv1 hvP,
              ← isPrefixOf_cons_eq, ← marker]
            exact hmv'
          rw [replaceAll_cons_neg hh1 _, replaceAll_cons_neg hh2 _]
          rw [ih cs' (by simp at hcs; omega)]

/-! Order-independence of the mangling loop for well-behaved variable
names. -/

theorem mangleVars_swap {v w : Str} (hv : goodVar v) (hw : goodVar w) (hvw : v ≠ w)
    (l : List Str) (t : Str) :
    (mangleVars t (v :: w :: l)).toOption = (mangleVars t (w :: v :: l)).toOption := by
  obtain ⟨hv1, hv2, hv3⟩ := hv
  obtain ⟨hw1, hw2, hw3⟩ := hw
  by_cases hcv : csub t (marker v) = true
  · by_cases hcw : csub t (marker w) = true
    · have hcv' : csub (replaceAll t (marker w) (mangled_name w)) (marker v) = true := by
        rw [csub_replaceAll_marker hw1 hw2 hv1 hv2 (Ne.symm hvw) hv3 t.length t le_rfl]
        exact hcv
      have hcw' : csub (replaceAll t (marker v) (mangled_name v)) (marker w) = true := by
        rw [csub_replaceAll_marker hv1 hv2 hw1 hw2 hvw hw3 t.length t le_rfl]
        exact hcw
      simp only [mangleVars, hcv, hcw, hcv', hcw', if_true]
      rw [replaceAll_marker_comm hv1 hv2 hw1 hw2 hvw hv3 hw3 t.length t le_rfl]
    · have hcw2 : csub t (marker w) = false := Bool.eq_false_iff.mpr hcw
      have hcw' : csub (replaceAll t (marker v) (mangled_name v)) (marker w) = false := by
        rw [csub_replaceAll_marker hv1 hv2 hw1 hw2 hvw hw3 t.length t le_rfl]
        exact hcw2
      simp [mangleVars, hcv, hcw2, hcw']
  · have hcv2 : csub t (marker v) = false := Bool.eq_false_iff.mpr hcv
    by_cases hcw : csub t (marker w) = true
    · have hcv' : csub (replaceAll t (marker w) (mangled_name w)) (marker v) = false := by
        rw [csub_replaceAll_marker hw1 hw2 hv1 hv2 (Ne.symm hvw) hv3 t.length t le_rfl]
        exact hcv2
      simp [mangleVars, hcv2, hcw, hcv']
    · have hcw2 : csub t (marker w) = false := Bool.eq_false_iff.mpr hcw
      simp only [mangleVars, hcv2, hcw2, Bool.false_eq_true, if_false]
      rfl

theorem mangleVars_perm : ∀ {l₁ l₂ : List Str}, List.Perm l₁ l₂ → l₁.Nodup →
    (∀ v ∈ l₁, goodVar v) → ∀ t,
      (mangleVars t l₁).toOption = (mangleVars t l₂).toOption := by
  intro l₁ l₂ hp
  induction hp with
  | nil => intro _ _ t; rfl
  | cons x p ih =>
    intro hnd hg t
    by_cases hcx : csub t (marker x) = true
    · simp only [mangleVars, hcx, if_true]
      exact ih (List.nodup_cons.mp hnd).2
        (fun v hv => hg v (List.mem_cons_of_mem x hv)) _
    · have hcx2 : csub t (marker x) = false := Bool.eq_false_iff.mpr hcx
      simp [mangleVars, hcx2]
  | swap x y l =>
    intro hnd hg t
    have hyx : y ≠ x := by
      rcases List.nodup_cons.mp hnd with ⟨hy, _⟩
      exact fun h => hy (h ▸ List.mem_cons_self x l)
    exact mangleVars_swap (hg y (List.mem_cons_self y _))
      (hg x (List.mem_cons_of_mem y (List.mem_cons_self x l))) hyx l t
  | trans p₁ p₂ ih₁ ih₂ =>
    intro hnd hg t
    rw [ih₁ hnd hg t, ih₂ (p₁.nodup hnd) (fun v hv => hg v (p₁.mem_iff.mpr hv)) t]

/-! Facts about cloning, the checker and the drivers. -/

theorem deep_clone_eq (n : CST) : deep_clone n = n := by
  induction n <;> simp [deep_clone, *]

theorem visit_Name_check_ok_iff (vars : List Str) (value : Str) :
    visit_Name_check vars value = .ok () ↔ ∀ v ∈ vars, value ≠ mangled_name v := by
  induction vars with
  | nil => simp [visit_Name_check]
  | cons v vs ih =>
    by_cases h : value = mangled_name v
    · simp [visit_Name_check, h]
    · simp [visit_Name_check, h, ih]

theorem visit_Name_check_error {vars : List Str} {value : Str}
    (h : ∃ v ∈ vars, value = mangled_name v) :
    ∃ v ∈ vars, visit_Name_check vars value = .error (.notReplaced v) := by
  induction vars with
  | nil => simp at h
  | cons x vs ih =>
    by_cases hx : value = mangled_name x
    · exact ⟨x, List.mem_cons_self x vs, by simp [visit_Name_check, hx]⟩
    · rcases h with ⟨v, hv, hveq⟩
      rcases List.mem_cons.mp hv with heq | hv2
      · exact absurd (heq ▸ hveq) hx
      · rcases ih ⟨v, hv2, hveq⟩ with ⟨u, hu, hueq⟩
        exact ⟨u, List.mem_cons_of_mem x hu, by simp [visit_Name_check, hx, hueq]⟩

theorem check_ok_of_not_bad (vars : List Str) :
    ∀ tree : CST, hasMangledName vars tree = false → check vars tree = .ok () := by
  intro tree
  induction tree with
  | name s =>
    intro h
    simp only [hasMangledName, List.any_eq_false] at h
    simp only [check]
    exact (visit_Name_check_ok_iff vars s).mpr
      (fun v hv hs => (h v hv) (by rw [hs]; exact beq_self_eq_true _))
  | simpleString s => intro _; rfl
  | integer s => intro _; rfl
  | binaryOperation l r ihl ihr =>
    intro h
    rcases Bool.or_eq_false_iff.mp (by simpa [hasMangledName] using h) with ⟨h1, h2⟩
    simp [check, ihl h1, ihr h2, Bind.bind, Except.bind]
  | exprStatement e ih =>
    intro h
    simp only [hasMangledName] at h
    simp [check, ih h]
  | simpleStatementLine b ih =>
    intro h
    simp only [hasMangledName] at h
    simp [check, ih h]
  | ifBlock tc b iht ihb =>
    intro h
    rcases Bool.or_eq_false_iff.mp (by simpa [hasMangledName] using h) with ⟨h1, h2⟩
    simp [check, iht h1, ihb h2, Bind.bind, Except.bind]
  | module b ih =>
    intro h
    simp only [hasMangledName] at h
    simp [check, ih h]

theorem check_ok_imp_not_bad (vars : List Str) :
    ∀ tree : CST, check vars tree = .ok () → hasMangledName vars tree = false := by
  intro tree
  induction tree with
  | name s =>
    intro h
    simp only [check] at h
    simp only [hasMangledName, List.any_eq_false]
    intro v hv hbeq
    exact ((visit_Name_check_ok_iff vars s).mp h v hv) (beq_iff_eq.mp hbeq)
  | simpleString s => intro _; rfl
  | integer s => intro _; rfl
  | binaryOperation l r ihl ihr =>
    intro h
    simp only [check, Bind.bind] at h
    cases hl : check vars l with
    | error e => rw [hl] at h; simp [Except.bind] at h
    | ok u =>
      cases u
      rw [hl] at h
      simp only [Except.bind] at h
      simp [hasMangledName, ihl hl, ihr h]
  | exprStatement e ih =>
    intro h
    simp only [check] at h
    simpa [hasMangledName] using ih h
  | simpleStatementLine b ih =>
    intro h
    simp only [check] at h
    simpa [hasMangledName] using ih h
  | ifBlock tc b iht ihb =>
    intro h
    simp only [check, Bind.bind] at h
    cases hl : check vars tc with
    | error e => rw [hl] at h; simp [Except.bind] at h
    | ok u =>
      cases u
      rw [hl] at h
      simp only [Except.bind] at h
      simp [hasMangledName, iht hl, ihb h]
  | module b ih =>
    intro h
    simp only [check] at h
    simpa [hasMangledName] using ih h

theorem check_error_of_bad (vars : List Str) :
    ∀ tree : CST, hasMangledName vars tree = true →
      ∃ v ∈ vars, check vars tree = .error (.notReplaced v) := by
  intro tree
  induction tree with
  | name s =>
    intro h
    simp only [hasMangledName, List.any_eq_true] at h
    rcases h with ⟨v, hv, hbeq⟩
    rcases visit_Name_check_error ⟨v, hv, beq_iff_eq.mp hbeq⟩ with ⟨u, hu, hueq⟩
    exact ⟨u, hu, by simp [check, hueq]⟩
  | simpleString s => intro h; simp [hasMangledName] at h
  | integer s => intro h; simp [hasMangledName] at h
  | binaryOperation l r ihl ihr =>
    intro h
    by_cases hl : hasMangledName vars l = true
    · rcases ihl hl with ⟨v, hv, he⟩
      exact ⟨v, hv, by simp [check, Bind.bind, Except.bind, he]⟩
    · have hl2 : hasMangledName vars l = false := Bool.eq_false_iff.mpr hl
      have hr : hasMangledName vars r = true := by
        simp only [hasMangledName, hl2, Bool.false_or] at h
        exact h
      rcases ihr hr with ⟨v, hv, he⟩
      exact ⟨v, hv, by simp [check, Bind.bind, Except.bind,
        check_ok_of_not_bad vars l hl2, he]⟩
  | exprStatement e ih =>
    intro h
    simp only [hasMangledName] at h
    rcases ih h with ⟨v, hv, he⟩
    exact ⟨v, hv, by simp [check, he]⟩
  | simpleStatementLine b ih =>
    intro h
    simp only [hasMangledName] at h
    rcases ih h with ⟨v, hv, he⟩
    exact ⟨v, hv, by simp [check, he]⟩
  | ifBlock tc b iht ihb =>
    intro h
    by_cases hl : hasMangledName vars tc = true
    · rcases iht hl with ⟨v, hv, he⟩
      exact ⟨v, hv, by simp [check, Bind.bind, Except.bind, he]⟩
    · have hl2 : hasMangledName vars tc = false := Bool.eq_false_iff.mpr hl
      have hr : hasMangledName vars b = true := by
        simp only [hasMangledName, hl2, Bool.false_or] at h
        exact h
      rcases ihb hr with ⟨v, hv, he⟩
      exact ⟨v, hv, by simp [check, Bind.bind, Except.bind,
        check_ok_of_not_bad vars tc hl2, he]⟩
  | module b ih =>
    intro h
    simp only [hasMangledName] at h
    rcases ih h with ⟨v, hv, he⟩
    exact ⟨v, hv, by simp [check, he]⟩

theorem bind_ok_cst {α β : Type} (a : α) (f : α → Except TError β) :
    (Bind.bind (Except.ok a) f : Except TError β) = f a := rfl

theorem bind_error_cst {α β : Type} (e : TError) (f : α → Except TError β) :
    (Bind.bind (Except.error e) f : Except TError β) = Except.error e := rfl

theorem parse_template_expression_ok_inv {parse : Str → Except TError CST} {t : Str}
    {repl : List (Str × CST)} {out : CST}
    (h : parse_template_expression parse t repl = .ok out) :
    check (repl.map (fun p => p.1)) out = .ok () ∧ isBaseExpression out = true := by
  unfold parse_template_expression at h
  cases hm : mangle_template t (repl.map (fun p => p.1)) with
  | error e => rw [hm, bind_error_cst] at h; simp at h
  | ok src =>
    rw [hm, bind_ok_cst] at h
    cases hp : parse src with
    | error e => rw [hp, bind_error_cst] at h; simp at h
    | ok tree =>
      rw [hp, bind_ok_cst] at h
      cases hu : unmangle_nodes tree repl with
      | error e => rw [hu, bind_error_cst] at h; simp at h
      | ok nw =>
        rw [hu, bind_ok_cst] at h
        by_cases hb : isBaseExpression nw = true
        · rw [if_pos hb] at h
          cases hc : check (repl.map (fun p => p.1)) nw with
          | error e => rw [hc, bind_error_cst] at h; simp at h
          | ok u =>
            cases u
            rw [hc, bind_ok_cst] at h
            simp only [Except.ok.injEq] at h
            subst h
            exact ⟨hc, hb⟩
        · rw [if_neg hb] at h
          simp at h

theorem parse_template_statement_ok_inv {parse : Str → Except TError CST} {t : Str}
    {repl : List (Str × CST)} {out : CST}
    (h : parse_template_statement parse t repl = .ok out) :
    check (repl.map (fun p => p.1)) out = .ok () ∧ isStatementNode out = true := by
  unfold parse_template_statement at h
  cases hm : mangle_template t (repl.map (fun p => p.1)) with
  | error e => rw [hm, bind_error_cst] at h; simp at h
  | ok src =>
    rw [hm, bind_ok_cst] at h
    cases hp : parse src with
    | error e => rw [hp, bind_error_cst] at h; simp at h
    | ok tree =>
      rw [hp, bind_ok_cst] at h
      cases hu : unmangle_nodes tree repl with
      | error e => rw [hu, bind_error_cst] at h; simp at h
      | ok nw =>
        rw [hu, bind_ok_cst] at h
        by_cases hb : isStatementNode nw = true
        · rw [if_pos hb] at h
          cases hc : check (repl.map (fun p => p.1)) nw with
          | error e => rw [hc, bind_error_cst] at h; simp at h
          | ok u =>
            cases u
            rw [hc, bind_ok_cst] at h
            simp only [Except.ok.injEq] at h
            subst h
            exact ⟨hc, hb⟩
        · rw [if_neg hb] at h
          simp at h

theorem parse_template_module_ok_inv {parse : Str → Except TError CST} {t : Str}
    {repl : List (Str × CST)} {out : CST}
    (h : parse_template_module parse t repl = .ok out) :
    check (repl.map (fun p => p.1)) out = .ok () ∧ isModuleNode out = true := by
  unfold parse_template_module at h
  cases hm : mangle_template t (repl.map (fun p => p.1)) with
  | error e => rw [hm, bind_error_cst] at h; simp at h
  | ok src =>
    rw [hm, bind_ok_cst] at h
    cases hp : parse src with
    | error e => rw [hp, bind_error_cst] at h; simp at h
    | ok tree =>
      rw [hp, bind_ok_cst] at h
      cases hu : unmangle_nodes tree repl with
      | error e => rw [hu, bind_error_cst] at h; simp at h
      | ok nw =>
        rw [hu, bind_ok_cst] at h
        by_cases hb : isModuleNode nw = true
        · rw [if_pos hb] at h
          cases hc : check (repl.map (fun p => p.1)) nw with
          | error e => rw [hc, bind_error_cst] at h; simp at h
          | ok u =>
            cases u
            rw [hc, bind_ok_cst] at h
            simp only [Except.ok.injEq] at h
            subst h
            exact ⟨hc, hb⟩
        · rw [if_neg hb] at h
          simp at h

theorem TemplateTransformer_init_error {repl : List (Str × CST)}
    (h : ∃ p ∈ repl, isBaseExpression p.2 = false) :
    ∃ v n, TemplateTransformer_init repl = .error (.unsupported v) ∧
      (v, n) ∈ repl ∧ isBaseExpression n = false := by
  have hsome : (repl.find? (fun p => !(isBaseExpression p.2))).isSome = true := by
    rw [List.find?_isSome]
    rcases h with ⟨p, hp, hb⟩
    exact ⟨p, hp, by simp [hb]⟩
  rcases Option.isSome_iff_exists.mp hsome with ⟨p, hfind⟩
  have hmem := List.mem_of_find?_eq_some hfind
  have hpred := List.find?_some hfind
  refine ⟨p.1, p.2, by simp [TemplateTransformer_init, hfind], ?_, ?_⟩
  · simpa using hmem
  · simpa using hpred

theorem drivers_unsupported {parse : Str → Except TError CST} {t src : Str}
    {repl : List (Str × CST)} {tree : CST} {v : Str}
    (hm : mangle_template t (repl.map (fun p => p.1)) = .ok src)
    (hp : parse src = .ok tree)
    (hi : TemplateTransformer_init repl = .error (.unsupported v)) :
    parse_template_module parse t repl = .error (.unsupported v) ∧
    parse_template_statement parse t repl = .error (.unsupported v) ∧
    parse_template_expression parse t repl = .error (.unsupported v) := by
  have hu : unmangle_nodes tree repl = .error (.unsupported v) := by
    unfold unmangle_nodes
    rw [hi, bind_error_cst]
  refine ⟨?_, ?_, ?_⟩
  · unfold parse_template_module
    rw [hm, bind_ok_cst, hp, bind_ok_cst, hu, bind_error_cst]
  · unfold parse_template_statement
    rw [hm, bind_ok_cst, hp, bind_ok_cst, hu, bind_error_cst]
  · unfold parse_template_expression
    rw [hm, bind_ok_cst, hp, bind_ok_cst, hu, bind_error_cst]

/-! Dictionary facts for the comment gatherer. -/

theorem find?_map_update (k : Nat) (c : CommentNode) :
    ∀ m : List (Nat × CommentNode), m.any (fun p => p.1 == k) = true →
      (m.map (fun p => if p.1 == k then (k, c) else p)).find? (fun p => p.1 == k)
        = some (k, c) := by
  intro m
  induction m with
  | nil => intro h; simp at h
  | cons p ps ih =>
    intro h
    simp only [List.map_cons]
    by_cases hp : (p.1 == k) = true
    · rw [if_pos hp]
      exact List.find?_cons_of_pos _ (by simp)
    · have hp2 : (p.1 == k) = false := Bool.eq_false_iff.mpr hp
      simp only [List.any_cons, hp2, Bool.false_or] at h
      rw [if_neg hp, List.find?_cons_of_neg _ (by simp [hp2])]
      exact ih h

theorem find?_append_new (k : Nat) (c : CommentNode) :
    ∀ m : List (Nat × CommentNode), m.any (fun p => p.1 == k) = false →
      (m ++ [(k, c)]).find? (fun p => p.1 == k) = some (k, c) := by
  intro m
  induction m with
  | nil => intro _; simp [List.find?]
  | cons p ps ih =>
    intro h
    simp only [List.any_cons, Bool.or_eq_false_iff] at h
    simp [List.find?, h.1, ih h.2]

theorem dictGet?_dictSet (m : List (Nat × CommentNode)) (k : Nat) (c : CommentNode) :
    dictGet? (dictSet m k c) k = some c := by
  unfold dictSet dictGet?
  by_cases ha : m.any (fun p => p.1 == k) = true
  · rw [if_pos ha, find?_map_update k c m ha]
    rfl
  · have ha2 : m.any (fun p => p.1 == k) = false := Bool.eq_false_iff.mpr ha
    rw [if_neg ha, find?_append_new k c m ha2]
    rfl

/-- C6: a template containing either sentinel is rejected by
`mangle_template` with the reserved-string error before any placeholder
replacement, and every driver fails the same way for every replacement
mapping and every external parser — the outcome does not depend on the
parser, so no parse is attempted. -/
theorem C6_reserved_template_rejected (t : Str) (vars : List Str)
    (repl : List (Str × CST)) (parse : Str → Except TError CST)
    (h : csub t TEMPLATE_PREFIX_S = true ∨ csub t TEMPLATE_SUFFIX_S = true) :
    mangle_template t vars = .error .reserved ∧
    parse_template_module parse t repl = .error .reserved ∧
    parse_template_statement parse t repl = .error .reserved ∧
    parse_template_expression parse t repl = .error .reserved := by
  have hm : ∀ vs : List Str, mangle_template t vs = .error .reserved := by
    intro vs
    unfold mangle_template
    rcases h with h | h <;> simp [h]
  refine ⟨hm vars, ?_, ?_, ?_⟩
  · unfold parse_template_module
    rw [hm _, bind_error_cst]
  · unfold parse_template_statement
    rw [hm _, bind_error_cst]
  · unfold parse_template_expression
    rw [hm _, bind_error_cst]

/-- Witness for C6: the template consisting of the prefix sentinel alone
is rejected everywhere. -/
theorem C6_reserved_template_rejected_witness :
    mangle_template TEMPLATE_PREFIX_S [] = .error .reserved ∧
    parse_template_module echoNameParse TEMPLATE_PREFIX_S [] = .error .reserved ∧
    parse_template_statement echoNameParse TEMPLATE_PREFIX_S [] = .error .reserved ∧
    parse_template_expression echoNameParse TEMPLATE_PREFIX_S [] = .error .reserved :=
  C6_reserved_template_rejected TEMPLATE_PREFIX_S [] [] echoNameParse (Or.inl (by decide))

/-- C8: a visited comment whose text matches the pattern at its start is
recorded under its own source line plus one when it is a standalone
full-line comment, and under its own source line when it is an inline
trailing comment; a non-matching comment is never recorded (the mapping
is unchanged). -/
theorem C8_visit_comment_spec (matcher : Str → Bool) (standalone : Bool)
    (line : Nat) (c : CommentNode) (m : List (Nat × CommentNode)) :
    (matcher c.value = true → standalone = true →
      dictGet? (visit_comment matcher standalone line c m) (line + 1) = some c) ∧
    (matcher c.value = true → standalone = false →
      dictGet? (visit_comment matcher standalone line c m) line = some c) ∧
    (matcher c.value = false → visit_comment matcher standalone line c m = m) := by
  refine ⟨?_, ?_, ?_⟩
  · intro hm hs
    subst hs
    simp [visit_comment, hm, dictGet?_dictSet]
  · intro hm hs
    subst hs
    simp [visit_comment, hm, dictGet?_dictSet]
  · intro hm
    simp [visit_comment, hm]

/-- Witness for C8: a standalone comment on line 5 is recorded under
line 6, an inline comment on line 3 under line 3, and a non-matching
comment is not recorded. -/
theorem C8_visit_comment_spec_witness :
    dictGet? (visit_comment (fun s => decide (s ≠ [])) true 5 ⟨("TAG: x").data⟩ []) 6
      = some ⟨("TAG: x").data⟩ ∧
    dictGet? (visit_comment (fun s => decide (s ≠ [])) false 3 ⟨("TAG: y").data⟩ []) 3
      = some ⟨("TAG: y").data⟩ ∧
    visit_comment (fun _ => false) true 5 ⟨("TAG: z").data⟩ [] = [] :=
  ⟨(C8_visit_comment_spec (fun s => decide (s ≠ [])) true 5 ⟨("TAG: x").data⟩ []).1
      (by decide) rfl,
   (C8_visit_comment_spec (fun s => decide (s ≠ [])) false 3 ⟨("TAG: y").data⟩ []).2.1
      (by decide) rfl,
   (C8_visit_comment_spec (fun _ => false) true 5 ⟨("TAG: z").data⟩ []).2.2 rfl⟩

/-- C2 (code bug): `parse_template_statement` does not append a line
terminator — the text handed to mangling and to the parser is the raw
template.  With no replacements and a parser echoing its input, the
template `pass` (no trailing newline) reaches the parser as exactly
`pass`; the function's own documentation promises `pass` plus a newline. -/
theorem C2_statement_no_newline_appended :
    parse_template_statement echoStatementParse (("pass").data) [] =
      .ok (.simpleStatementLine (.exprStatement (.name (("pass").data)))) ∧
    (("pass").data : Str) ≠ ("pass").data ++ [Char.ofNat 10] := by
  constructor
  · decide
  · decide

/-- C1 (amended): a replacement mapping holding a value that is not
expression-shaped makes every driver fail with an `unsupported` error
naming an offending variable — but only after mangling has succeeded and
the external parser has been invoked and succeeded: the rejection
happens when the substitution rewriter is constructed, which follows the
parse (see the counterexample for the original "before any parse"
reading). -/
theorem C1_unsupported_replacement_after_parse
    (parse : Str → Except TError CST) (t src : Str) (tree : CST)
    (repl : List (Str × CST))
    (hbad : ∃ p ∈ repl, isBaseExpression p.2 = false)
    (hm : mangle_template t (repl.map (fun p => p.1)) = .ok src)
    (hp : parse src = .ok tree) :
    ∃ v n, (v, n) ∈ repl ∧ isBaseExpression n = false ∧
      parse_template_module parse t repl = .error (.unsupported v) ∧
      parse_template_statement parse t repl = .error (.unsupported v) ∧
      parse_template_expression parse t repl = .error (.unsupported v) := by
  rcases TemplateTransformer_init_error hbad with ⟨v, n, hi, hmem, hb⟩
  rcases drivers_unsupported hm hp hi with ⟨h1, h2, h3⟩
  exact ⟨v, n, hmem, hb, h1, h2, h3⟩

/-- Witness for C1: binding `v` to a statement node, with the template
`{v}` and an echoing parser, each driver reports the unsupported
replacement for `v`. -/
theorem C1_unsupported_replacement_after_parse_witness :
    ∃ v n, (v, n) ∈
        ([((("v").data : Str),
          CST.simpleStatementLine (.exprStatement (.integer (("1").data))))]
          : List (Str × CST)) ∧
      isBaseExpression n = false ∧
      parse_template_module echoNameParse (marker (("v").data))
        [((("v").data : Str),
          CST.simpleStatementLine (.exprStatement (.integer (("1").data))))]
        = .error (.unsupported v) ∧
      parse_template_statement echoNameParse (marker (("v").data))
        [((("v").data : Str),
          CST.simpleStatementLine (.exprStatement (.integer (("1").data))))]
        = .error (.unsupported v) ∧
      parse_template_expression echoNameParse (marker (("v").data))
        [((("v").data : Str),
          CST.simpleStatementLine (.exprStatement (.integer (("1").data))))]
        = .error (.unsupported v) :=
  C1_unsupported_replacement_after_parse echoNameParse (marker (("v").data))
    (mangled_name (("v").data)) (.name (mangled_name (("v").data)))
    [((("v").data : Str),
      CST.simpleStatementLine (.exprStatement (.integer (("1").data))))]
    (by decide) (by decide) (by decide)

/-- C1 counterexample: with the same non-expression replacement but a
failing external parser, the call reports the parser's error rather than
the unsupported-replacement error — so the parse is attempted, and the
rejection does not occur before it. -/
theorem C1_counterexample_parse_attempted :
    parse_template_statement failParse (marker (("v").data))
        [((("v").data : Str),
          CST.simpleStatementLine (.exprStatement (.integer (("1").data))))]
      = .error .parseFailure ∧
    TError.parseFailure ≠ TError.unsupported (("v").data) := by
  constructor
  · decide
  · decide

/-- Control-flow normal form of `leave_Name` when both splits succeed. -/
theorem leave_Name_eq_of_splits {repl : List (Str × CST)} {value pre rest nm suf : Str}
    (h1 : splitFirst? value TEMPLATE_PREFIX_S = some (pre, rest))
    (h2 : splitFirst? rest TEMPLATE_SUFFIX_S = some (nm, suf))
    (hS : csub value TEMPLATE_SUFFIX_S = true) :
    leave_Name repl value =
      if pre ≠ ([] : Str) ∨ suf ≠ ([] : Str) then .ok (.name value)
      else
        match lookupRepl repl nm with
        | none => .ok (.name value)
        | some n => .ok (deep_clone n) := by
  have hP : csub value TEMPLATE_PREFIX_S = true := by
    unfold csub
    rw [h1]
    rfl
  simp only [leave_Name, hP, hS, Bool.and_self, if_true, h1, h2]

/-- C3 (amended): at an identifier visited by the rewriter — when the
text lacks one of the sentinels it is returned unchanged; when both
splits succeed, a non-empty head or tail leaves it unchanged, an unknown
extracted name leaves it unchanged, and a known name is replaced by a
deep clone of the mapped node.  The amendment: when the text contains
both sentinels but no suffix occurrence follows the first prefix
occurrence, the second split fails and the rewriter raises an error
(Python `ValueError`) instead of returning the node unchanged. -/
theorem C3_leave_Name_cases (repl : List (Str × CST)) (value : Str) :
    (¬(csub value TEMPLATE_PREFIX_S = true ∧ csub value TEMPLATE_SUFFIX_S = true) →
      leave_Name repl value = .ok (.name value)) ∧
    (∀ pre rest nm suf,
      splitFirst? value TEMPLATE_PREFIX_S = some (pre, rest) →
      splitFirst? rest TEMPLATE_SUFFIX_S = some (nm, suf) →
      csub value TEMPLATE_SUFFIX_S = true →
      ((pre ≠ ([] : Str) ∨ suf ≠ ([] : Str)) →
        leave_Name repl value = .ok (.name value)) ∧
      (pre = ([] : Str) → suf = ([] : Str) → lookupRepl repl nm = none →
        leave_Name repl value = .ok (.name value)) ∧
      (∀ n, pre = ([] : Str) → suf = ([] : Str) → lookupRepl repl nm = some n →
        leave_Name repl value = .ok (deep_clone n))) ∧
    (∀ pre rest,
      csub value TEMPLATE_SUFFIX_S = true →
      splitFirst? value TEMPLATE_PREFIX_S = some (pre, rest) →
      splitFirst? rest TEMPLATE_SUFFIX_S = none →
      leave_Name repl value = .error .valueError) := by
  refine ⟨?_, ?_, ?_⟩
  · intro h
    have hb : (csub value TEMPLATE_PREFIX_S && csub value TEMPLATE_SUFFIX_S) = false := by
      by_cases h1 : csub value TEMPLATE_PREFIX_S = true
      · by_cases h2 : csub value TEMPLATE_SUFFIX_S = true
        · exact absurd ⟨h1, h2⟩ h
        · rw [h1, Bool.eq_false_iff.mpr h2, Bool.and_false]
      · rw [Bool.eq_false_iff.mpr h1, Bool.false_and]
    simp only [leave_Name, hb, Bool.false_eq_true, if_false]
  · intro pre rest nm suf h1 h2 hS
    rw [leave_Name_eq_of_splits h1 h2 hS]
    refine ⟨?_, ?_, ?_⟩
    · intro hne
      rw [if_pos hne]
    · intro hpre hsuf hlook
      rw [if_neg (by simp [hpre, hsuf]), hlook]
    · intro n hpre hsuf hlook
      rw [if_neg (by simp [hpre, hsuf]), hlook]
  · intro pre rest hS h1 h2
    have hP : csub value TEMPLATE_PREFIX_S = true := by
      unfold csub
      rw [h1]
      rfl
    simp only [leave_Name, hP, hS, Bool.and_self, if_true, h1, h2]

/-- Witness for C3: an identifier without sentinels passes through
unchanged, and the exact mangled token of a bound variable is replaced
by the (clone of the) bound node. -/
theorem C3_leave_Name_cases_witness :
    leave_Name [((("x").data : Str), CST.integer (("1").data))] (("y").data)
      = .ok (.name (("y").data)) ∧
    leave_Name [((("x").data : Str), CST.integer (("1").data))]
        (mangled_name (("x").data))
      = .ok (.integer (("1").data)) :=
  ⟨(C3_leave_Name_cases [((("x").data : Str), CST.integer (("1").data))]
      (("y").data)).1 (by decide),
   ((C3_leave_Name_cases [((("x").data : Str), CST.integer (("1").data))]
        (mangled_name (("x").data))).2.1
      ([] : Str) ((("x").data : Str) ++ TEMPLATE_SUFFIX_S) (("x").data) ([] : Str)
      (by decide) (by decide) (by decide)).2.2
    (CST.integer (("1").data)) rfl rfl (by decide)⟩

/-- C3 counterexample: the identifier text `_EMAN_DELGNAM_TSCBIL____LIBCST_MANGLED_NAME_`
(the suffix sentinel followed by the prefix sentinel) contains both
sentinels, but the text after the first prefix occurrence holds no
suffix, so the rewriter raises an error instead of returning the node
unchanged as the claim states. -/
theorem C3_counterexample_suffix_before_prefix :
    leave_Name [] (TEMPLATE_SUFFIX_S ++ TEMPLATE_PREFIX_S) = .error .valueError ∧
    leave_Name [] (TEMPLATE_SUFFIX_S ++ TEMPLATE_PREFIX_S)
      ≠ .ok (.name (TEMPLATE_SUFFIX_S ++ TEMPLATE_PREFIX_S)) := by
  constructor
  · decide
  · decide

/-- C4 (amended): a declared variable's exact mangled token surviving as
the value of an identifier node always makes the checker fail with the
not-replaced error naming a declared variable, and a tree successfully
returned by any driver holds no identifier node equal to a declared
variable's token.  The amendment: the check covers identifier nodes
only — a token surviving inside a non-identifier position, such as a
string literal, is not detected (see the counterexample). -/
theorem C4_checker_completeness :
    (∀ (vars : List Str) (tree : CST), hasMangledName vars tree = true →
      ∃ v ∈ vars, check vars tree = .error (.notReplaced v)) ∧
    (∀ (parse : Str → Except TError CST) (t : Str) (repl : List (Str × CST))
      (out : CST), parse_template_module parse t repl = .ok out →
      hasMangledName (repl.map (fun p => p.1)) out = false) ∧
    (∀ (parse : Str → Except TError CST) (t : Str) (repl : List (Str × CST))
      (out : CST), parse_template_statement parse t repl = .ok out →
      hasMangledName (repl.map (fun p => p.1)) out = false) ∧
    (∀ (parse : Str → Except TError CST) (t : Str) (repl : List (Str × CST))
      (out : CST), parse_template_expression parse t repl = .ok out →
      hasMangledName (repl.map (fun p => p.1)) out = false) :=
  ⟨fun vars tree h => check_error_of_bad vars tree h,
   fun _ _ _ _ h => check_ok_imp_not_bad _ _ (parse_template_module_ok_inv h).1,
   fun _ _ _ _ h => check_ok_imp_not_bad _ _ (parse_template_statement_ok_inv h).1,
   fun _ _ _ _ h => check_ok_imp_not_bad _ _ (parse_template_expression_ok_inv h).1⟩

/-- Witness for C4: the checker rejects the surviving token of `x`, and a
successful expression-driver run leaves no token behind. -/
theorem C4_checker_completeness_witness :
    (∃ v ∈ [(("x").data : Str)],
      check [(("x").data : Str)] (.name (mangled_name (("x").data)))
        = .error (.notReplaced v)) ∧
    hasMangledName [(("x").data : Str)] (.integer (("1").data)) = false :=
  ⟨C4_checker_completeness.1 [(("x").data : Str)]
      (.name (mangled_name (("x").data))) (by decide),
   C4_checker_completeness.2.2.2 echoNameParse (marker (("x").data))
      [((("x").data : Str), CST.integer (("1").data))] (.integer (("1").data))
      (by decide)⟩

/-- C4 counterexample: with the placeholder inside a string literal —
template `"{x}"` — the mangled token of `x` survives inside the returned
literal's text, yet the expression driver succeeds: a token in a
non-identifier position is silently accepted, contradicting the claim
that such survival always raises the not-replaced error. -/
theorem C4_counterexample_token_in_literal :
    parse_template_expression echoStringParse
        ('"' :: (marker (("x").data) ++ ['"']))
        [((("x").data : Str), CST.name (("y").data))]
      = .ok (.simpleString ('"' :: (mangled_name (("x").data) ++ ['"']))) ∧
    csub ('"' :: (mangled_name (("x").data) ++ ['"'])) (mangled_name (("x").data))
      = true := by
  constructor
  · decide
  · decide

/-- C5 (amended): with an external parser that parses the mangled token
of `x` to the identifier of that exact text, and an expression-shaped
node `N` holding no identifier equal to that token, rendering the
template `{x}` with `x` bound to `N` succeeds and returns a node
structurally equal to `N`.  The amendment excludes nodes that themselves
carry the mangled token as an identifier (see the counterexample). -/
theorem C5_round_trip (parse : Str → Except TError CST) (N : CST)
    (hp : parse (mangled_name (("x").data)) = .ok (.name (mangled_name (("x").data))))
    (hexpr : isBaseExpression N = true)
    (hclean : hasMangledName [(("x").data : Str)] N = false) :
    parse_template_expression parse (marker (("x").data))
      [((("x").data : Str), N)] = .ok N := by
  unfold parse_template_expression
  have hmap : List.map (fun p => p.1) [((("x").data : Str), N)]
      = [(("x").data : Str)] := rfl
  rw [hmap]
  rw [show mangle_template (marker (("x").data)) [(("x").data : Str)]
      = .ok (mangled_name (("x").data)) from by decide]
  rw [bind_ok_cst, hp, bind_ok_cst]
  have hinit : TemplateTransformer_init [((("x").data : Str), N)]
      = .ok [((("x").data : Str), N)] := by
    unfold TemplateTransformer_init
    rw [show List.find? (fun p => !(isBaseExpression p.2)) [((("x").data : Str), N)]
        = none from by simp [List.find?, hexpr]]
    simp [List.filter, hexpr]
  have hlook : lookupRepl [((("x").data : Str), N)] (("x").data) = some N := by
    simp [lookupRepl, List.find?]
  have hleave : leave_Name [((("x").data : Str), N)] (mangled_name (("x").data))
      = .ok (deep_clone N) := by
    rw [leave_Name_eq_of_splits
      (by decide : splitFirst? (mangled_name (("x").data)) TEMPLATE_PREFIX_S
        = some (([] : Str), (("x").data ++ TEMPLATE_SUFFIX_S)))
      (by decide : splitFirst? ((("x").data ++ TEMPLATE_SUFFIX_S)) TEMPLATE_SUFFIX_S
        = some ((("x").data : Str), ([] : Str)))
      (by decide)]
    rw [if_neg (by simp), hlook]
  have hun : unmangle_nodes (.name (mangled_name (("x").data)))
      [((("x").data : Str), N)] = .ok N := by
    unfold unmangle_nodes
    rw [hinit, bind_ok_cst]
    show transform [((("x").data : Str), N)] (.name (mangled_name (("x").data))) = _
    simp only [transform]
    rw [hleave, deep_clone_eq]
  rw [hun, bind_ok_cst, if_pos hexpr,
    check_ok_of_not_bad [(("x").data : Str)] N hclean, bind_ok_cst]

/-- Witness for C5: the literal `1` bound to `x` round-trips. -/
theorem C5_round_trip_witness :
    parse_template_expression echoNameParse (marker (("x").data))
      [((("x").data : Str), CST.integer (("1").data))]
      = .ok (.integer (("1").data)) :=
  C5_round_trip echoNameParse (.integer (("1").data)) (by decide) (by decide)
    (by decide)

/-- C5 counterexample: binding `x` to the expression-shaped identifier
whose text is exactly the mangled token of `x` makes the round trip fail
with the not-replaced error instead of succeeding with a node equal to
the bound one. -/
theorem C5_counterexample_adversarial_name :
    parse_template_expression echoNameParse (marker (("x").data))
        [((("x").data : Str), CST.name (mangled_name (("x").data)))]
      = .error (.notReplaced (("x").data)) := by
  decide

/-- C10 (amended): the completeness checker compares identifier text with
mangled tokens by exact equality only: an identifier whose text strictly
contains a declared variable's mangled token as a proper substring but
equals no declared variable's mangled token raises no error.  The
amendment: the text must differ from every declared token, not only from
the contained one (see the counterexample). -/
theorem C10_checker_exact_equality (vars : List Str) (value : Str) (v : Str)
    (_hv : v ∈ vars) (_hcontain : csub value (mangled_name v) = true)
    (_hproper : value ≠ mangled_name v)
    (hnone : ∀ w ∈ vars, value ≠ mangled_name w) :
    visit_Name_check vars value = .ok () ∧ check vars (.name value) = .ok () := by
  have h := (visit_Name_check_ok_iff vars value).mpr hnone
  exact ⟨h, by simp [check, h]⟩

/-- Witness for C10: the identifier `a` followed by the token of `x`
strictly contains that token and is not flagged. -/
theorem C10_checker_exact_equality_witness :
    visit_Name_check [(("x").data : Str)] ('a' :: mangled_name (("x").data))
      = .ok () ∧
    check [(("x").data : Str)] (.name ('a' :: mangled_name (("x").data)))
      = .ok () :=
  C10_checker_exact_equality [(("x").data : Str)]
    ('a' :: mangled_name (("x").data)) (("x").data)
    (by decide) (by decide) (by decide) (by decide)

/-- C10 counterexample: with declared variables `x` and
`__LIBCST_MANGLED_NAME_x_EMAN_DELGNAM_TSCBIL__` (both valid identifier
names), the identifier equal to the second variable's mangled token
strictly contains the token of `x` without equalling it, yet the checker
raises the not-replaced error — so "strictly contains but does not equal
it" does not guarantee the absence of an error. -/
theorem C10_counterexample_containment_error :
    csub (mangled_name (mangled_name (("x").data))) (mangled_name (("x").data))
      = true ∧
    mangled_name (mangled_name (("x").data)) ≠ mangled_name (("x").data) ∧
    check [(("x").data : Str), mangled_name (("x").data)]
        (.name (mangled_name (mangled_name (("x").data))))
      = .error (.notReplaced (mangled_name (("x").data))) := by
  refine ⟨by decide, by decide, by decide⟩

/-- C7 (amended): for a duplicate-free set of variable names, each free
of brace characters and not containing the sentinel prefix, the outcome
of mangling — the mangled string on success, and whether the call
fails — is the same for every iteration order over the set.  The
amendment excludes names with braces or embedded sentinel text, for
which replacement can create or destroy another variable's marker (see
the counterexample). -/
theorem C7_mangle_order_invariant {l₁ l₂ : List Str} (hp : List.Perm l₁ l₂)
    (hnd : l₁.Nodup) (hg : ∀ v ∈ l₁, goodVar v) (t : Str) :
    (mangle_template t l₁).toOption = (mangle_template t l₂).toOption := by
  unfold mangle_template
  by_cases hres : (csub t TEMPLATE_PREFIX_S || csub t TEMPLATE_SUFFIX_S) = true
  · rw [if_pos hres, if_pos hres]
  · rw [if_neg hres, if_neg hres]
    exact mangleVars_perm hp hnd hg t

/-- Witness for C7: the template `{a}{b}` mangles identically under both
orders of the variable set `{a, b}`. -/
theorem C7_mangle_order_invariant_witness :
    (mangle_template (marker (("a").data) ++ marker (("b").data))
        [(("a").data : Str), (("b").data : Str)]).toOption
      = (mangle_template (marker (("a").data) ++ marker (("b").data))
        [(("b").data : Str), (("a").data : Str)]).toOption :=
  C7_mangle_order_invariant (by decide) (by decide) (by decide)
    (marker (("a").data) ++ marker (("b").data))

/-- C7 counterexample: the template `{{a}}` with the variable names `a`
and `__LIBCST_MANGLED_NAME_a_EMAN_DELGNAM_TSCBIL__` (both valid
identifier names).  Replacing `{a}` first creates the second variable's
marker, and mangling succeeds; the other order fails with a
missing-reference error, so the outcome depends on the iteration
order. -/
theorem C7_counterexample_order_dependent :
    (mangle_template [lbrace, lbrace, 'a', rbrace, rbrace]
        [(("a").data : Str), mangled_name (("a").data)]).toOption
      ≠ (mangle_template [lbrace, lbrace, 'a', rbrace, rbrace]
        [mangled_name (("a").data), (("a").data : Str)]).toOption := by
  decide

end LCST
